import Mathlib

/-!
Verification of the aws-nitro-enclave-attestation repository.

This file gives a shallow embedding of the Rust sources in Lean 4 and proves
properties of the embedded definitions.  Byte strings are modelled as
`List Nat`.  External primitives (the SHA-256 compression, x509 DER parsing,
CBOR codecs, the ECDSA verifier of the crate `sign.rs`, the JSON-RPC contract
calls) are collected in oracle structures over which all theorems quantify:
the theorems proved here are about the control flow and data flow of the
repository code, which is what the specification sentences under scrutiny
describe, not about the internals of those primitives.
-/

namespace NitroAttest

/-- Byte strings (`&[u8]` / `Vec<u8>` / `Bytes`). -/
abbrev Bytes := List Nat

/-! ## Algorithms (sign.rs of x509-verifier-rust-crypto, not present in src/) -/

/-- Modelled from the spec: the elliptic curve parameters supported by the
x509 library (§4.1: ECDSA P-256 / P-384). -/
inductive EcParams where
  | P256
  | P384
deriving DecidableEq

/-- Modelled from the spec: the public-key algorithm extracted from a parsed
certificate (sign.rs `KeyAlgo`, absent from src/); §4.1 names ECDSA keys,
with other key kinds (e.g. RSA) present in the enum for the library's other
consumers. -/
inductive KeyAlgo where
  | ECDSA (params : EcParams)
  | RSA
deriving DecidableEq

/-- Modelled from the spec: the signature algorithms of sign.rs `SigAlgo`
(absent from src/).  cose.rs matches on `EcdsaSHA256` and `EcdsaSHA384` and
has a catch-all arm for the remaining variants. -/
inductive SigAlgo where
  | EcdsaSHA256
  | EcdsaSHA384
  | EcdsaSHA512
  | RsaSHA256
deriving DecidableEq

/-- sign.rs `PubKey` (absent from src/): a key algorithm plus the raw
subject-public-key bytes. -/
structure PubKey where
  algo : KeyAlgo
  val : Bytes
deriving DecidableEq

/-- Modelled from the spec: sign.rs `SigAlgo::check_compatible_with` (absent
from src/).  §4.1: "a cert's signature algorithm and its issuer's key
algorithm must agree on curve+hash; otherwise fail fast". -/
def SigAlgo.check_compatible_with : SigAlgo → KeyAlgo → Except String Unit
  | .EcdsaSHA256, .ECDSA .P256 => .ok ()
  | .EcdsaSHA384, .ECDSA .P384 => .ok ()
  | .RsaSHA256, .RSA => .ok ()
  | _, _ => .error "incompatible algorithm"

/-! ## Parsed certificate content (x509_parser externals) -/

/-- The content a parsed `X509Certificate` exposes to cert.rs: the validity
window, the public-key algorithm eagerly extracted at parse time, the raw
public-key bytes, the signature-algorithm lookup result
(`SigAlgo::from_oid`, which cert.rs evaluates at verification time and which
fails on an unsupported OID), the signature value and the to-be-signed
bytes. -/
structure CertData where
  notBefore : Int
  notAfter : Int
  pubkeyAlgo : KeyAlgo
  sigAlgoRes : Except String SigAlgo
  pubkeyVal : Bytes
  signatureVal : Bytes
  tbs : Bytes

/-! ## CBOR values and COSE header maps (serde_cbor externals) -/

/-- The fragment of `serde_cbor::Value` that cose.rs inspects: integer
values (the algorithm ids) and the shapes a malformed header could carry. -/
inductive CborValue where
  | cint (i : Int)
  | cbytes (bs : Bytes)
  | ctext (s : String)
deriving DecidableEq

/-- cose.rs `HeaderMap`: a CBOR map from values to values.  CBOR decoding
rejects duplicate keys, so an association list with first-match lookup is a
faithful model of the `BTreeMap` get. -/
abbrev HeaderMap := List (CborValue × CborValue)

/-- `BTreeMap::get` on the decoded header map. -/
def headerLookup (m : HeaderMap) (k : CborValue) : Option CborValue :=
  (m.find? (fun p => p.1 == k)).map (·.2)

/-- cose.rs `CoseSign1`: the four fields of the (possibly tagged) COSE_Sign1
array.  The protected header is kept as its raw byte string, exactly as in
the source. -/
structure CoseSign1 where
  protectedHeader : Bytes
  unprotected : HeaderMap
  payload : Bytes
  signature : Bytes

/-! ## The attestation document (doc.rs) -/

/-- doc.rs `AttestationDocument`.  `pcrs` is a `BTreeMap<u64, ByteArray<48>>`,
modelled as an association list whose keys the map invariant keeps strictly
ascending; values are 48-byte strings. -/
structure AttestationDocument where
  module_id : String
  timestamp : Nat
  digest : String
  pcrs : List (Nat × Bytes)
  certificate : Bytes
  cabundle : List Bytes
  public_key : Option Bytes
  user_data : Option Bytes
  nonce : Option Bytes

/-- doc.rs `AttestationReport`. -/
structure AttestationReport where
  doc : AttestationDocument
  cose_sign : CoseSign1

/-! ## Wire schema structs (verifier.rs `sol!` block) -/

/-- `Bytes48` of the wire schema: a 48-byte value split into a 32-byte and a
16-byte half, an ABI packing choice. -/
structure Bytes48 where
  first : Bytes
  second : Bytes
deriving DecidableEq

/-- `Pcr` of the wire schema: an index paired with a `Bytes48` value. -/
structure PcrEntry where
  index : Nat
  value : Bytes48
deriving DecidableEq

/-- verifier.rs `VerifierInput`: note the `timestamp` field carried in
addition to the trusted-prefix length and the raw report bytes. -/
structure VerifierInput where
  timestamp : Nat
  trusted_certs_len : Nat
  attestation_report : Bytes

/-- verifier.rs `VerifierJournal` (the public output of the verifier
guest). -/
structure VerifierJournalData where
  verify_timestamp : Nat
  certs : List Bytes
  trusted_certs_len : Nat
  user_data : Bytes
  nonce : Bytes
  public_key : Bytes
  pcrs : List PcrEntry
  module_id : String
  doc_timestamp : Nat

/-- `BatchVerifierInput` of the wire schema. -/
structure BatchVerifierInputData where
  verifierVk : Bytes
  outputs : List VerifierJournalData

/-- `BatchVerifierJournal` of the wire schema. -/
structure BatchVerifierJournalData where
  verifierVk : Bytes
  outputs : List VerifierJournalData

/-! ## The oracle for external primitives -/

/-- The external primitives the repository calls.  Every theorem quantifies
over this structure; witnesses instantiate it with small concrete
functions. -/
structure Crypto where
  /-- `sha2::Sha256::digest` (the sha256 helper of cert.rs calls it). -/
  sha256 : Bytes → Bytes
  /-- `X509Certificate::from_der` plus the eager pubkey-algorithm
  extraction of `Cert::parse_der` (x509_parser plus sign.rs
  `KeyAlgo::from_algo`, both external to src/): yields the parsed
  content or a parse error. -/
  parseCertData : Bytes → Except String CertData
  /-- Modelled from the spec: sign.rs `ec_decode_sig` (absent from src/),
  §4.1: converts a DER-wrapped `(r,s)` signature into the fixed-length
  concatenated form matching the curve; fails on undecodable input. -/
  ecDecodeSig : Bytes → EcParams → Except String Bytes
  /-- Modelled from the spec: sign.rs `verify_signature` (absent from
  src/): verifies a raw `r||s` (or RSA) signature over a message with the
  given key and algorithm; `Ok(false)` is a mismatch, errors are malformed
  inputs. -/
  verifySignature : PubKey → SigAlgo → Bytes → Bytes → Except String Bool
  /-- `serde_cbor::from_slice::<HeaderMap>` on protected-header bytes. -/
  cborDecodeHeaderMap : Bytes → Except String HeaderMap
  /-- `serde_cbor::from_slice::<Tagged<CoseSign1>>`: the optional tag and
  the four-tuple. -/
  cborDecodeCose : Bytes → Except String (Option Nat × CoseSign1)
  /-- `serde_cbor::from_slice::<AttestationDocument>` on the payload. -/
  cborDecodeDoc : Bytes → Except String AttestationDocument
  /-- `SigStructure::new_sign1(protected, payload).as_bytes()`: the CBOR
  encoding of `["Signature1", protected, empty, payload]`. -/
  cborSigStructure : Bytes → Bytes → Except String Bytes
  /-- `VerifierJournal::abi_encode` (alloy ABI encoder). -/
  abiEncodeJournal : VerifierJournalData → Bytes
  /-- `BatchVerifierJournal::abi_encode` (alloy ABI encoder). -/
  abiEncodeBatchJournal : BatchVerifierJournalData → Bytes
  /-- `ASN1Time::from_timestamp(timestamp as i64)` (x509_parser / time
  crate): fails outside the representable range. -/
  asn1FromTimestamp : Nat → Except String Int

/-! ## cert.rs: certificates and certificate chains -/

/-- cert.rs `Cert`: the parsed certificate content together with the raw DER
bytes it was parsed from (the `raw` + `bytes` + eagerly extracted
`pubkey_algo` of the source, with the parsed content in `data`). -/
structure Cert where
  data : CertData
  bytes : Bytes

/-- A placeholder certificate used only to totalize list indexing; all
indexing in the development happens below the proven length bounds. -/
def defaultCert : Cert :=
  { data := { notBefore := 0, notAfter := 0, pubkeyAlgo := .RSA,
              sigAlgoRes := .error "", pubkeyVal := [], signatureVal := [],
              tbs := [] },
    bytes := [] }

instance : Inhabited Cert := ⟨defaultCert⟩

/-- cert.rs `Cert::parse_der`: parse the DER bytes (the external parser also
covers the trailing-bytes check and the eager pubkey-algorithm extraction)
and keep the raw bytes alongside. -/
def Cert.parse_der (o : Crypto) (buf : Bytes) : Except String Cert :=
  (o.parseCertData buf).map (fun d => { data := d, bytes := buf })

/-- cert.rs `Cert::digest`: SHA-256 of the raw DER bytes. -/
def Cert.digest (o : Crypto) (c : Cert) : Bytes :=
  o.sha256 c.bytes

/-- cert.rs `Cert::pubkey`. -/
def Cert.pubkey (c : Cert) : PubKey :=
  { algo := c.data.pubkeyAlgo, val := c.data.pubkeyVal }

/-- cert.rs `Cert::sig_algo` (`SigAlgo::from_oid` on the cert's
signature-algorithm OID; fails on an unsupported OID). -/
def Cert.sig_algo (c : Cert) : Except String SigAlgo :=
  c.data.sigAlgoRes

/-- cert.rs `Cert::check_valid`: `Validity::is_valid_at` is
`notBefore ≤ t ≤ notAfter` (§4.1). -/
def Cert.check_valid (c : Cert) (time : Int) : Except String Unit :=
  if c.data.notBefore ≤ time ∧ time ≤ c.data.notAfter then .ok ()
  else .error "certificate is not valid at time"

/-- cert.rs `Cert::verify`: verify this certificate's signature using the
issuer's key (or the certificate's own key when no issuer is given).  An
ECDSA signature is first converted from DER to the fixed-length form. -/
def Cert.verify (o : Crypto) (c : Cert) (issuer : Option Cert) :
    Except String Bool := do
  let issuer_key := (issuer.getD c).pubkey
  let sig_algo ← c.sig_algo
  let _ ← sig_algo.check_compatible_with issuer_key.algo
  let sig ← match issuer_key.algo with
    | .ECDSA params => o.ecDecodeSig c.data.signatureVal params
    | _ => pure c.data.signatureVal
  o.verifySignature issuer_key sig_algo sig c.data.tbs

/-- cert.rs `CertChain`: certificates in root-to-leaf order together with
the inductive path digests. -/
structure CertChain where
  certs : List Cert
  path_digest : List Bytes

/-- cert.rs `CertChain::new`. -/
def CertChain.new : CertChain :=
  { certs := [], path_digest := [] }

/-- cert.rs `CertChain::add_cert_by_der`: parse the DER bytes, push the next
path digest (the cert digest at the root, otherwise
`SHA-256(parent_digest || SHA-256(der))`) and push the certificate. -/
def CertChain.add_cert_by_der (o : Crypto) (ch : CertChain) (buf : Bytes) :
    Except String CertChain := do
  let cert ← Cert.parse_der o buf
  let d := match ch.path_digest.getLast? with
    | some parent_digest => o.sha256 (parent_digest ++ cert.digest o)
    | none => cert.digest o
  .ok { certs := ch.certs ++ [cert], path_digest := ch.path_digest ++ [d] }

/-- The `for` loop of cert.rs `CertChain::parse`: add every DER of the list
in order. -/
def CertChain.addAll (o : Crypto) (ch : CertChain) : List Bytes → Except String CertChain
  | [] => .ok ch
  | b :: bs => do
    let ch' ← ch.add_cert_by_der o b
    ch'.addAll o bs

/-- cert.rs `CertChain::parse`: build a chain from DER certs in
root-to-leaf order. -/
def CertChain.parse (o : Crypto) (chain : List Bytes) : Except String CertChain :=
  CertChain.new.addAll o chain

/-- The `for` loop of cert.rs `CertChain::check_valid`: every certificate
must be valid at the given time. -/
def checkAllValid (time : Int) : List Cert → Except String Unit
  | [] => .ok ()
  | c :: cs => do
    let _ ← c.check_valid time
    checkAllValid time cs

/-- cert.rs `CertChain::check_valid`: convert the unix timestamp, reject an
empty chain, then check every certificate's validity window. -/
def CertChain.check_valid (o : Crypto) (ch : CertChain) (timestamp : Nat) :
    Except String Unit := do
  let time ← o.asn1FromTimestamp timestamp
  if ch.certs.isEmpty then .error "cert chain is empty"
  else checkAllValid time ch.certs

/-- The `for` loop of cert.rs `CertChain::verify_chain`, beginning at index
`i`: verify `certs[i]` against `certs[i-1]` (no issuer at index 0), stop
with `Ok(false)` at the first mismatch and propagate the first error.  The
first argument is the number of remaining iterations (the loop runs
`certs.length - i` times); recursion on it keeps the definition structural
and hence computable by reduction. -/
def verifyFrom (o : Crypto) (certs : List Cert) : Nat → Nat → Except String Bool
  | 0, _ => .ok true
  | fuel + 1, i =>
    if i < certs.length then
      match Cert.verify o (certs.getD i defaultCert)
          (if i = 0 then none else some (certs.getD (i - 1) defaultCert)) with
      | .error e => .error ("verify cert sig failed at " ++ toString i ++ ": " ++ e)
      | .ok false => .ok false
      | .ok true => verifyFrom o certs fuel (i + 1)
    else .ok true

/-- cert.rs `CertChain::verify_chain`: error when the trusted prefix exceeds
the chain length, otherwise verify every link from the prefix onward. -/
def CertChain.verify_chain (o : Crypto) (ch : CertChain) (trusted_certs_len : Nat) :
    Except String Bool :=
  if trusted_certs_len > ch.certs.length then
    .error "trusted certs length is greater than cert chain length"
  else verifyFrom o ch.certs (ch.certs.length - trusted_certs_len) trusted_certs_len

/-! ## cose.rs: the COSE_Sign1 envelope -/

/-- cose.rs `sig_algo_val`: the COSE algorithm id of a `SigAlgo` (`-7` for
ECDSA/SHA-256, `-35` for ECDSA/SHA-384); any other variant is
unsupported. -/
def sig_algo_val : SigAlgo → Except String Int
  | .EcdsaSHA256 => .ok (-7)
  | .EcdsaSHA384 => .ok (-35)
  | _ => .error "unsupport sigAlgo"

/-- cose.rs `CoseSign1::from_bytes`: CBOR-decode the (possibly tagged)
4-tuple, accept only the absent tag or tag 18, and require the protected
bytes to decode as a header map. -/
def CoseSign1.from_bytes (o : Crypto) (bytes : Bytes) : Except String CoseSign1 := do
  let (tag, value) ← o.cborDecodeCose bytes
  match tag with
  | none => pure ()
  | some 18 => pure ()
  | some _ => .error "tag error"
  let _ ← o.cborDecodeHeaderMap value.protectedHeader
  .ok value

/-- cose.rs `CoseSign1::verify_signature`: decode the protected header,
require an algorithm entry at integer key 1, return `Ok(false)` when it
differs from the caller-supplied algorithm's id, otherwise verify the
signature over the Sig_structure bytes. -/
def CoseSign1.verify_signature (o : Crypto) (c : CoseSign1) (sig_algo : SigAlgo)
    (issuer_key : PubKey) : Except String Bool := do
  let protectedMap ← o.cborDecodeHeaderMap c.protectedHeader
  match headerLookup protectedMap (.cint 1) with
  | some (.cint protected_signature_alg) => do
    let v ← sig_algo_val sig_algo
    if protected_signature_alg ≠ v then
      .ok false
    else do
      let tbs ← o.cborSigStructure c.protectedHeader c.payload
      o.verifySignature issuer_key sig_algo c.signature tbs
  | some _ =>
    .error "Protected Header contains invalid Signature Algorithm specification"
  | none =>
    .error "Protected Header does not contain a valid Signature Algorithm specification"

/-! ## doc.rs: the attestation report -/

/-- doc.rs `AttestationReport::parse`: decode the COSE envelope, then decode
the attestation document from its payload. -/
def AttestationReport.parse (o : Crypto) (document_data : Bytes) :
    Except String AttestationReport := do
  let cose_sign ← CoseSign1.from_bytes o document_data
  let doc ← o.cborDecodeDoc cose_sign.payload
  .ok { doc := doc, cose_sign := cose_sign }

/-- doc.rs `AttestationReport::cert_chain`: the cabundle (root first)
followed by the leaf certificate. -/
def AttestationReport.cert_chain (o : Crypto) (r : AttestationReport) :
    Except String CertChain := do
  let ch ← CertChain.new.addAll o r.doc.cabundle
  ch.add_cert_by_der o r.doc.certificate

/-- doc.rs `AttestationReport::authenticate`: build the chain, verify the
links beyond the trusted prefix, check the time window at the given
timestamp, then verify the COSE signature with the leaf key and ES384.  The
chain is non-empty once `check_valid` has passed, so the leaf lookup never
takes its error branch. -/
def AttestationReport.authenticate (o : Crypto) (r : AttestationReport)
    (trusted_certs_len : Nat) (timestamp : Nat) : Except String CertChain := do
  let cert_chain ← r.cert_chain o
  match cert_chain.verify_chain o trusted_certs_len with
  | .ok true => pure ()
  | .ok false => .error "failed to verify x509 chain"
  | .error e => .error ("failed to verify x509 chain: " ++ e)
  let _ ← cert_chain.check_valid o timestamp
  let some leaf := cert_chain.certs.getLast? | .error "cert chain is empty"
  let result ← r.cose_sign.verify_signature o .EcdsaSHA384 leaf.pubkey
  if result then .ok cert_chain
  else .error "AttestationDocument::authenticate invalid COSE certificate for provided key"

/-! ## verifier.rs: the verifier guest's pure function -/

/-- verifier.rs `get_option_bytes`: an absent optional byte string becomes
the empty byte string. -/
def get_option_bytes : Option Bytes → Bytes
  | some v => v
  | none => []

/-- The 48 zero bytes (`ByteArray::<48>::default()`). -/
def zero48 : Bytes := List.replicate 48 0

/-- The `Bytes48` packing of a 48-byte PCR value: first 32 bytes and last
16 bytes. -/
def toBytes48 (v : Bytes) : Bytes48 :=
  { first := v.take 32, second := v.drop 32 }

/-- verifier.rs `verify_attestation_report`: parse the report, authenticate
it with the input's `trusted_certs_len` and `timestamp` fields, then build
the journal; the PCR map is filtered to the non-zero values. -/
def verify_attestation_report (o : Crypto) (input : VerifierInput) :
    Except String VerifierJournalData := do
  let report ← AttestationReport.parse o input.attestation_report
  let cert_chain ← report.authenticate o input.trusted_certs_len input.timestamp
  let doc := report.doc
  .ok { verify_timestamp := input.timestamp
        certs := cert_chain.path_digest
        trusted_certs_len := input.trusted_certs_len
        user_data := get_option_bytes doc.user_data
        nonce := get_option_bytes doc.nonce
        public_key := get_option_bytes doc.public_key
        pcrs := (doc.pcrs.filter (fun p => p.2 ≠ zero48)).map
          (fun p => { index := p.1, value := toBytes48 p.2 })
        module_id := doc.module_id
        doc_timestamp := doc.timestamp }

/-- Modelled from the spec: the §4.4 sentence "Runs the §4.3 pipeline using
`doc.timestamp/1000` as the verification time" — identical to
`verify_attestation_report` except that the authentication pipeline is run
at `doc.timestamp / 1000` instead of the input's `timestamp` field.  This
definition exists only to be compared with the one translated from the
source. -/
def verify_attestation_report_specTime (o : Crypto) (input : VerifierInput) :
    Except String VerifierJournalData := do
  let report ← AttestationReport.parse o input.attestation_report
  let cert_chain ← report.authenticate o input.trusted_certs_len
    (report.doc.timestamp / 1000)
  let doc := report.doc
  .ok { verify_timestamp := input.timestamp
        certs := cert_chain.path_digest
        trusted_certs_len := input.trusted_certs_len
        user_data := get_option_bytes doc.user_data
        nonce := get_option_bytes doc.nonce
        public_key := get_option_bytes doc.public_key
        pcrs := (doc.pcrs.filter (fun p => p.2 ≠ zero48)).map
          (fun p => { index := p.1, value := toBytes48 p.2 })
        module_id := doc.module_id
        doc_timestamp := doc.timestamp }

/-! ## Aggregator guest programs (sp1-aggregator and risc0-aggregator) -/

/-- A zkVM syscall the aggregator guest performs, in program order: a
proof-composition assertion binding a verifying key to a journal digest, or
a commit of the public output bytes. -/
inductive GuestEvent where
  | assertProof (vk : Bytes) (digest : Bytes)
  | commit (bytes : Bytes)
deriving DecidableEq

/-- stub.rs `VerifierJournal::digest`: SHA-256 of the ABI encoding. -/
def journalDigest (o : Crypto) (j : VerifierJournalData) : Bytes :=
  o.sha256 (o.abiEncodeJournal j)

/-- sp1-aggregator `main`: for each output call
`verify_sp1_proof(vk_digest, output.digest())`, then commit the encoded
`BatchVerifierJournal` rebuilt from the input's fields. -/
def sp1AggregatorMain (o : Crypto) (input : BatchVerifierInputData) :
    List GuestEvent :=
  (input.outputs.map (fun output =>
    GuestEvent.assertProof input.verifierVk (journalDigest o output)))
  ++ [GuestEvent.commit (o.abiEncodeBatchJournal
        { verifierVk := input.verifierVk, outputs := input.outputs })]

/-- risc0-aggregator `main`: for each output call
`env::verify(verifierVk, output.encode())`; the RISC Zero primitive binds
the image id to the SHA-256 digest of the journal bytes it is given, so the
event records that digest.  Then commit the encoded `BatchVerifierJournal`
rebuilt from the input's fields. -/
def risc0AggregatorMain (o : Crypto) (input : BatchVerifierInputData) :
    List GuestEvent :=
  (input.outputs.map (fun output =>
    GuestEvent.assertProof input.verifierVk (o.sha256 (o.abiEncodeJournal output))))
  ++ [GuestEvent.commit (o.abiEncodeBatchJournal
        { verifierVk := input.verifierVk, outputs := input.outputs })]

/-! ## contract.rs: the verifier-contract client -/

/-- types.rs `ProgramId`. -/
structure ProgramId where
  verifier_id : Bytes
  verifier_proof_id : Bytes
  aggregator_id : Bytes

/-- The on-chain `ZkCoProcessorConfig` struct. -/
structure ZkCoProcessorConfig where
  verifierId : Bytes
  verifierProofId : Bytes
  aggregatorId : Bytes

/-- The results the JSON-RPC provider returns for the contract's view
calls, one field per call the prover uses (network externals). -/
structure ContractOracle where
  zkConfigRes : Except String ZkCoProcessorConfig
  maxTimeDiffRes : Except String Nat
  rootCertRes : Except String Bytes
  checkTrustedRes : List (List Bytes) → Except String (List Nat)

/-- types.rs `ProgramId::verify`: error unless all three ids equal the
on-chain config's. -/
def ProgramId.verify (p : ProgramId) (zk_config : ZkCoProcessorConfig) :
    Except String Unit :=
  if zk_config.aggregatorId ≠ p.aggregator_id ∨
      zk_config.verifierId ≠ p.verifier_id ∨
      zk_config.verifierProofId ≠ p.verifier_proof_id then
    .error "Program ID mismatch with on-chain config"
  else .ok ()

/-- contract.rs `NitroEnclaveVerifierContract::root_cert`. -/
def Contract.root_cert (c : ContractOracle) : Except String Bytes :=
  c.rootCertRes

/-- contract.rs `NitroEnclaveVerifierContract::batch_query_cert_cache`:
empty input short-circuits to an empty answer; each per-report digest list
must be non-empty and at most 8 long, otherwise the call is rejected
locally; then the `checkTrustedIntermediateCerts` view call is made. -/
def Contract.batch_query_cert_cache (c : ContractOracle)
    (certs_digests : List (List Bytes)) : Except String (List Nat) :=
  if certs_digests.isEmpty then .ok []
  else if certs_digests.any (fun report_certs =>
      report_certs.length = 0 ∨ report_certs.length > 8) then
    .error "Too many certificate chains provided, maximum is 8"
  else c.checkTrustedRes certs_digests

/-! ## prover.rs: the orchestrator's input preparation -/

/-- prover.rs `ProverConfig` (the policy fields consulted by
`prepare_verifier_inputs`). -/
structure ProverConfig where
  default_trusted_certs_prefix_length : Nat
  skip_time_validity_check : Bool
  skip_contract_program_id_check : Bool

/-- The ABI `VerifierInput` the host builds (`stub::VerifierInput`): the
trusted-prefix length and the raw report bytes. -/
structure VerifierInputStub where
  trustedCertsPrefixLen : Nat
  attestationReport : Bytes
deriving DecidableEq

/-- The first `for` loop of `prepare_verifier_inputs`: parse every raw
report and collect the parsed reports together with their path-digest
lists; the first failure aborts. -/
def parseReportsAndDigests (o : Crypto) :
    List Bytes → Except String (List AttestationReport × List (List Bytes))
  | [] => .ok ([], [])
  | raw_report :: rest => do
    let report ← AttestationReport.parse o raw_report
    let cert_chain ← report.cert_chain o
    let (reports, digests) ← parseReportsAndDigests o rest
    .ok (report :: reports, cert_chain.path_digest :: digests)

/-- The timestamp-validation `for` loop of `prepare_verifier_inputs`: a
report whose `doc.timestamp/1000 + max_time_diff` is below the current time
aborts the preparation, unless the skip flag is set, in which case the loop
only warns and proceeds. -/
def validateTimes (skip : Bool) (current_time : Nat) (max_time_diff : Nat) :
    List AttestationReport → Except String Unit
  | [] => .ok ()
  | report :: rest =>
    if report.doc.timestamp / 1000 + max_time_diff < current_time ∧ ¬skip then
      .error "Report signed too long ago, may indicate verification failure"
    else validateTimes skip current_time max_time_diff rest

/-- prover.rs `NitroEnclaveProver::prepare_verifier_inputs`: parse the
reports and their digests; with a contract, check the zk config against the
local program id (fatal unless skipped) and query the certificate cache;
without one, use `max_time_diff = 3*3600` and the configured default prefix
length for every report.  Then gate on timestamps and zip the raw reports
with the prefix lengths.  (The source asserts the two lists have equal
length; the model reports the violated assertion as an error.) -/
def prepare_verifier_inputs (o : Crypto) (cfg : ProverConfig)
    (program_id : ProgramId) (contract : Option ContractOracle)
    (current_time : Nat) (raw_reports : List Bytes) :
    Except String (List VerifierInputStub) := do
  let (parsed_reports, cert_digests) ← parseReportsAndDigests o raw_reports
  let (trusted_certs_prefix_lengths, max_time_diff) ←
    match contract with
    | some verifier_contract => do
      let zk_config ← verifier_contract.zkConfigRes
      let mtd ← verifier_contract.maxTimeDiffRes
      match program_id.verify zk_config with
      | .error e =>
        if ¬cfg.skip_contract_program_id_check then
          Except.error ("Program ID verification failed: " ++ e)
        else pure ()
      | .ok _ => pure ()
      let lens ← Contract.batch_query_cert_cache verifier_contract cert_digests
      pure (lens, mtd)
    | none =>
      pure (List.replicate parsed_reports.length
              cfg.default_trusted_certs_prefix_length, 3600 * 3)
  let _ ← validateTimes cfg.skip_time_validity_check current_time max_time_diff
    parsed_reports
  if trusted_certs_prefix_lengths.length ≠ raw_reports.length then
    .error "Trusted certificate lengths count mismatch"
  else
    .ok (List.zipWith
      (fun report_bytes len =>
        { trustedCertsPrefixLen := len, attestationReport := report_bytes })
      raw_reports trusted_certs_prefix_lengths)

/-! ## Concrete instances used by witnesses and counterexamples -/

/-- A concrete parsed-certificate content: valid between times 0 and 100,
a P-384 key, an ECDSA/SHA-384 signature algorithm. -/
def certDataW : CertData :=
  { notBefore := 0, notAfter := 100, pubkeyAlgo := .ECDSA .P384,
    sigAlgoRes := .ok .EcdsaSHA384, pubkeyVal := [4], signatureVal := [5],
    tbs := [6] }

/-- A concrete attestation document with `timestamp = 5000000` ms (so
`timestamp/1000 = 5000`), an empty cabundle, and a PCR map holding one
zero and two non-zero values at ascending indices. -/
def docW : AttestationDocument :=
  { module_id := "i-0ab-enc0", timestamp := 5000000, digest := "SHA384",
    pcrs := [(0, zero48), (1, List.replicate 47 0 ++ [1]),
             (2, List.replicate 48 2)],
    certificate := [0], cabundle := [], public_key := none,
    user_data := some [7, 7], nonce := none }

/-- A concrete COSE_Sign1 envelope. -/
def coseW : CoseSign1 :=
  { protectedHeader := [1], unprotected := [], payload := [2], signature := [3] }

/-- The report assembled from `docW` and `coseW`. -/
def reportW : AttestationReport :=
  { doc := docW, cose_sign := coseW }

/-- A concrete oracle: the hash is the identity on byte lists, parsing
always yields `certDataW` / `docW` / `coseW`, CBOR decoding of a protected
header yields the ES384 algorithm entry, and signature verification
accepts. -/
def cryptoW : Crypto :=
  { sha256 := fun bs => bs,
    parseCertData := fun _ => .ok certDataW,
    ecDecodeSig := fun bs _ => .ok bs,
    verifySignature := fun _ _ _ _ => .ok true,
    cborDecodeHeaderMap := fun _ => .ok [(.cint 1, .cint (-35))],
    cborDecodeCose := fun _ => .ok (some 18, coseW),
    cborDecodeDoc := fun _ => .ok docW,
    cborSigStructure := fun _ _ => .ok [],
    abiEncodeJournal := fun _ => [],
    abiEncodeBatchJournal := fun _ => [],
    asn1FromTimestamp := fun t => .ok (Int.ofNat t) }

/-- A concrete verifier input whose `timestamp` field (50) differs from
`docW.timestamp / 1000` (5000); the certificates of `cryptoW` are valid at
50 but not at 5000. -/
def inputW : VerifierInput :=
  { timestamp := 50, trusted_certs_len := 1, attestation_report := [9] }

/-- The two-certificate chain obtained by adding the DER byte strings `[0]`
and `[7]` under `cryptoW` (whose hash is the identity): the path digests
are `[0]` and `[0] ++ [7]`. -/
def chainW : CertChain :=
  { certs := [{ data := certDataW, bytes := [0] },
              { data := certDataW, bytes := [7] }],
    path_digest := [[0], [0, 7]] }

/-- A concrete contract oracle whose stored root certificate digest is
`[1]` and whose batched cache query answers `[0]` for any input. -/
def contractW : ContractOracle :=
  { zkConfigRes := .ok { verifierId := [], verifierProofId := [], aggregatorId := [] },
    maxTimeDiffRes := .ok 10,
    rootCertRes := .ok [1],
    checkTrustedRes := fun _ => .ok [0] }

/-- A variant of `cryptoW` whose protected-header decoding yields a map
without an algorithm entry. -/
def cryptoNoAlg : Crypto :=
  { cryptoW with cborDecodeHeaderMap := fun _ => .ok [] }

/-- A concrete prover configuration: default prefix length 1, no skip
flags. -/
def cfgW : ProverConfig :=
  { default_trusted_certs_prefix_length := 1,
    skip_time_validity_check := false,
    skip_contract_program_id_check := false }

/-- `cfgW` with the time-validity check skipped. -/
def cfgSkipW : ProverConfig :=
  { cfgW with skip_time_validity_check := true }

/-- A concrete local program id. -/
def programIdW : ProgramId :=
  { verifier_id := [], verifier_proof_id := [], aggregator_id := [] }

/-- A default journal value, used only to totalize list indexing. -/
def defaultJournal : VerifierJournalData :=
  { verify_timestamp := 0, certs := [], trusted_certs_len := 0,
    user_data := [], nonce := [], public_key := [], pcrs := [],
    module_id := "", doc_timestamp := 0 }

instance : Inhabited VerifierJournalData := ⟨defaultJournal⟩

/-- A concrete batch input with two distinct journal outputs. -/
def batchInputW : BatchVerifierInputData :=
  { verifierVk := [3, 3],
    outputs := [defaultJournal, { defaultJournal with verify_timestamp := 9 }] }

/-- The journal `verify_attestation_report` produces at `cryptoW` /
`inputW`: the zero-valued PCR 0 is filtered out, the absent `nonce` and
`public_key` are empty byte strings, and `verify_timestamp` echoes the
input's timestamp field 50. -/
def jW : VerifierJournalData :=
  { verify_timestamp := 50, certs := [[0]], trusted_certs_len := 1,
    user_data := [7, 7], nonce := [], public_key := [],
    pcrs := [{ index := 1,
               value := { first := List.replicate 32 0,
                          second := List.replicate 15 0 ++ [1] } },
             { index := 2,
               value := { first := List.replicate 32 2,
                          second := List.replicate 16 2 } }],
    module_id := "i-0ab-enc0", doc_timestamp := 5000000 }

/-! ## Derived predicates used in theorem statements -/

/-- One signature verification step of the `verify_chain` loop: the
certificate at index `i` verified with its predecessor as issuer (no issuer
at index 0, which makes `Cert::verify` use the certificate's own key). -/
def certVerifyAt (o : Crypto) (certs : List Cert) (i : Nat) : Except String Bool :=
  Cert.verify o (certs.getD i defaultCert)
    (if i = 0 then none else some (certs.getD (i - 1) defaultCert))

/-- The path-digest invariant of a certificate chain:
`certs.len() == path_digest.len()`, `path_digest[0] = SHA-256(cert[0].der)`
and `path_digest[i] = SHA-256(path_digest[i-1] || SHA-256(cert[i].der))`
for `i ≥ 1`. -/
def pathDigestInv (o : Crypto) (ch : CertChain) : Prop :=
  ch.certs.length = ch.path_digest.length ∧
  ∀ i, i < ch.path_digest.length →
    ch.path_digest.getD i [] =
      (if i = 0 then o.sha256 (ch.certs.getD 0 defaultCert).bytes
       else o.sha256 (ch.path_digest.getD (i - 1) [] ++
         o.sha256 (ch.certs.getD i defaultCert).bytes))

/-! ## Lemmas about the verify_chain loop -/

theorem verifyFrom_base (o : Crypto) (certs : List Cert) (fuel i : Nat)
    (h : ¬ i < certs.length) : verifyFrom o certs fuel i = .ok true := by
  cases fuel with
  | zero => rfl
  | succ fuel =>
    unfold verifyFrom
    rw [if_neg h]

theorem verifyFrom_step (o : Crypto) (certs : List Cert) (fuel i : Nat)
    (h : i < certs.length) :
    verifyFrom o certs (fuel + 1) i =
      match certVerifyAt o certs i with
      | .error e => .error ("verify cert sig failed at " ++ toString i ++ ": " ++ e)
      | .ok false => .ok false
      | .ok true => verifyFrom o certs fuel (i + 1) := by
  conv_lhs => unfold verifyFrom
  rw [if_pos h]
  rfl

theorem verifyFrom_ok_true_iff (o : Crypto) (certs : List Cert) :
    ∀ fuel i, certs.length - i ≤ fuel →
      (verifyFrom o certs fuel i = .ok true ↔
        ∀ j, i ≤ j → j < certs.length → certVerifyAt o certs j = .ok true) := by
  intro fuel
  induction fuel with
  | zero =>
    intro i hk
    constructor
    · intro _ j hij hj
      omega
    · intro _
      rfl
  | succ fuel ih =>
    intro i hk
    by_cases h : i < certs.length
    · rw [verifyFrom_step o certs fuel i h]
      cases hv : certVerifyAt o certs i with
      | error e =>
        constructor
        · intro habs
          simp at habs
        · intro hall
          have hi := hall i le_rfl h
          rw [hv] at hi
          simp at hi
      | ok b =>
        cases b with
        | false =>
          constructor
          · intro habs
            simp at habs
          · intro hall
            have hi := hall i le_rfl h
            rw [hv] at hi
            simp at hi
        | true =>
          rw [ih (i + 1) (by omega)]
          constructor
          · intro hall j hij hj
            rcases Nat.eq_or_lt_of_le hij with heq | hlt
            · rw [← heq]
              exact hv
            · exact hall j hlt hj
          · intro hall j hij hj
            exact hall j (by omega) hj
    · rw [verifyFrom_base o certs (fuel + 1) i h]
      constructor
      · intro _ j hij hj
        omega
      · intro _
        rfl

theorem verifyFrom_error (o : Crypto) (certs : List Cert) :
    ∀ fuel i, certs.length - i ≤ fuel → ∀ e, verifyFrom o certs fuel i = .error e →
      ∃ j, i ≤ j ∧ j < certs.length ∧ ∃ msg, certVerifyAt o certs j = .error msg := by
  intro fuel
  induction fuel with
  | zero =>
    intro i hk e habs
    simp [verifyFrom] at habs
  | succ fuel ih =>
    intro i hk e herr
    by_cases h : i < certs.length
    · rw [verifyFrom_step o certs fuel i h] at herr
      cases hv : certVerifyAt o certs i with
      | error msg =>
        exact ⟨i, le_rfl, h, msg, hv⟩
      | ok b =>
        rw [hv] at herr
        cases b with
        | false => simp at herr
        | true =>
          obtain ⟨j, hij, hj, hmsg⟩ := ih (i + 1) (by omega) e herr
          exact ⟨j, by omega, hj, hmsg⟩
    · rw [verifyFrom_base o certs (fuel + 1) i h] at herr
      simp at herr

theorem verifyFrom_ok_false (o : Crypto) (certs : List Cert) :
    ∀ fuel i, certs.length - i ≤ fuel → verifyFrom o certs fuel i = .ok false →
      ∃ j, i ≤ j ∧ j < certs.length ∧ certVerifyAt o certs j = .ok false := by
  intro fuel
  induction fuel with
  | zero =>
    intro i hk habs
    simp [verifyFrom] at habs
  | succ fuel ih =>
    intro i hk hfalse
    by_cases h : i < certs.length
    · rw [verifyFrom_step o certs fuel i h] at hfalse
      cases hv : certVerifyAt o certs i with
      | error msg =>
        rw [hv] at hfalse
        simp at hfalse
      | ok b =>
        rw [hv] at hfalse
        cases b with
        | false => exact ⟨i, le_rfl, h, hv⟩
        | true =>
          obtain ⟨j, hij, hj, hres⟩ := ih (i + 1) (by omega) hfalse
          exact ⟨j, by omega, hj, hres⟩
    · rw [verifyFrom_base o certs (fuel + 1) i h] at hfalse
      simp at hfalse

theorem verifyFrom_false_of_mismatch (o : Crypto) (certs : List Cert) :
    ∀ fuel i, certs.length - i ≤ fuel →
      (∀ j, i ≤ j → j < certs.length → ∀ msg, certVerifyAt o certs j ≠ .error msg) →
      (∃ j, i ≤ j ∧ j < certs.length ∧ certVerifyAt o certs j = .ok false) →
      verifyFrom o certs fuel i = .ok false := by
  intro fuel
  induction fuel with
  | zero =>
    intro i hk _ hex
    obtain ⟨j, hij, hj, _⟩ := hex
    omega
  | succ fuel ih =>
    intro i hk hnoerr hex
    obtain ⟨j, hij, hj, hres⟩ := hex
    have h : i < certs.length := by omega
    rw [verifyFrom_step o certs fuel i h]
    cases hv : certVerifyAt o certs i with
    | error msg =>
      exact absurd hv (hnoerr i le_rfl h msg)
    | ok b =>
      cases b with
      | false => rfl
      | true =>
        have hij' : i + 1 ≤ j := by
          rcases Nat.eq_or_lt_of_le hij with heq | hlt
          · rw [← heq] at hres
            rw [hv] at hres
            simp at hres
          · omega
        exact ih (i + 1) (by omega)
          (fun j' hj' hj'' msg => hnoerr j' (by omega) hj'' msg)
          ⟨j, hij', hj, hres⟩

/-! ## Reduction lemmas for the Except monad -/

theorem exbind_ok {α β : Type} (a : α) (f : α → Except String β) :
    ((Except.ok a : Except String α) >>= f) = f a := rfl

theorem exbind_error {α β : Type} (e : String) (f : α → Except String β) :
    ((Except.error e : Except String α) >>= f) = .error e := rfl

theorem expure_bind {α β : Type} (a : α) (f : α → Except String β) :
    ((pure a : Except String α) >>= f) = f a := rfl

theorem getLast?_eq_getD {α : Type} (l : List α) (d : α) (h : l ≠ []) :
    l.getLast? = some (l.getD (l.length - 1) d) := by
  have hlen : 0 < l.length := List.length_pos.mpr h
  rw [List.getLast?_eq_getElem?, List.getElem?_eq_getElem (by omega),
    List.getD_eq_getElem _ _ (by omega)]

/-! ## Claim C3 -/

/-- C3: for a chain of length `L` and every `n ≤ L`, `verify_chain(n)`
verifies, for each `i` in `n..L`, the signature of `certs[i]` using
`certs[i-1]` as issuer (the certificate itself when `i = 0`, last
conjunct); it returns `Ok(true)` iff all these verifications pass, returns
`Ok(false)` when some verification mismatches and none rejects its data as
malformed, and returns an error only when some verification step rejects
malformed data (unsupported or incompatible algorithm, undecodable
signature, or a crypto-level error). -/
theorem verify_chain_classification (o : Crypto) (ch : CertChain) (n : Nat)
    (hn : n ≤ ch.certs.length) :
    (ch.verify_chain o n = .ok true ↔
      ∀ i, n ≤ i → i < ch.certs.length → certVerifyAt o ch.certs i = .ok true) ∧
    (∀ e, ch.verify_chain o n = .error e →
      ∃ i, n ≤ i ∧ i < ch.certs.length ∧
        ∃ msg, certVerifyAt o ch.certs i = .error msg) ∧
    (ch.verify_chain o n = .ok false →
      ∃ i, n ≤ i ∧ i < ch.certs.length ∧ certVerifyAt o ch.certs i = .ok false) ∧
    ((∀ i, n ≤ i → i < ch.certs.length → ∀ msg, certVerifyAt o ch.certs i ≠ .error msg) →
      (∃ i, n ≤ i ∧ i < ch.certs.length ∧ certVerifyAt o ch.certs i = .ok false) →
      ch.verify_chain o n = .ok false) ∧
    (∀ c : Cert, Cert.verify o c none = Cert.verify o c (some c)) := by
  have hvc : ch.verify_chain o n = verifyFrom o ch.certs (ch.certs.length - n) n := by
    unfold CertChain.verify_chain
    rw [if_neg (by omega)]
  refine ⟨?_, ?_, ?_, ?_, ?_⟩
  · rw [hvc]
    exact verifyFrom_ok_true_iff o ch.certs (ch.certs.length - n) n le_rfl
  · rw [hvc]
    exact fun e => verifyFrom_error o ch.certs (ch.certs.length - n) n le_rfl e
  · rw [hvc]
    exact verifyFrom_ok_false o ch.certs (ch.certs.length - n) n le_rfl
  · rw [hvc]
    exact verifyFrom_false_of_mismatch o ch.certs (ch.certs.length - n) n le_rfl
  · intro c
    rfl

/-- Witness for C3: on the concrete two-certificate chain `chainW` under
`cryptoW` every verification step passes, and `verify_chain(0)` returns
`Ok(true)`. -/
theorem verify_chain_classification_witness :
    chainW.verify_chain cryptoW 0 = .ok true := by
  apply (verify_chain_classification cryptoW chainW 0 (by decide)).1.mpr
  intro i _ hi
  have h2 : chainW.certs.length = 2 := rfl
  rw [h2] at hi
  interval_cases i <;> rfl

/-! ## Claim C10 -/

/-- C10: `verify_chain(n)` returns an error whenever `n` exceeds the chain
length, and when `n` equals the chain length it returns `Ok(true)` — for
every oracle, i.e. without performing any signature verification at all. -/
theorem verify_chain_prefix_bounds (o : Crypto) (ch : CertChain) (n : Nat) :
    (ch.certs.length < n → ∃ e, ch.verify_chain o n = .error e) ∧
    (n = ch.certs.length → ch.verify_chain o n = .ok true) := by
  constructor
  · intro h
    refine ⟨"trusted certs length is greater than cert chain length", ?_⟩
    unfold CertChain.verify_chain
    rw [if_pos (by omega)]
  · intro h
    unfold CertChain.verify_chain
    rw [if_neg (by omega)]
    exact verifyFrom_base o ch.certs (ch.certs.length - n) n (by omega)

/-- Witness for C10: on the concrete chain of length 2, `verify_chain(3)`
errors and `verify_chain(2)` returns `Ok(true)`. -/
theorem verify_chain_prefix_bounds_witness :
    (∃ e, chainW.verify_chain cryptoW 3 = .error e) ∧
    chainW.verify_chain cryptoW 2 = .ok true :=
  ⟨(verify_chain_prefix_bounds cryptoW chainW 3).1 (by decide),
   (verify_chain_prefix_bounds cryptoW chainW 2).2 (by decide)⟩

/-! ## Claim C2 -/

theorem add_cert_pathInv (o : Crypto) (ch : CertChain) (buf : Bytes) (ch' : CertChain)
    (hinv : pathDigestInv o ch) (hadd : ch.add_cert_by_der o buf = .ok ch') :
    pathDigestInv o ch' := by
  obtain ⟨hlen, hdig⟩ := hinv
  unfold CertChain.add_cert_by_der at hadd
  cases hp : Cert.parse_der o buf with
  | error e =>
    rw [hp] at hadd
    simp only [exbind_error] at hadd
    exact Except.noConfusion hadd
  | ok cert =>
    rw [hp] at hadd
    simp only [exbind_ok] at hadd
    cases hlast : ch.path_digest.getLast? with
    | none =>
      have hnil : ch.path_digest = [] := List.getLast?_eq_none_iff.mp hlast
      have hcnil : ch.certs = [] := by
        have : ch.certs.length = 0 := by rw [hlen, hnil]; rfl
        exact List.length_eq_zero.mp this
      rw [hlast] at hadd
      injection hadd with hadd
      subst hadd
      constructor
      · simp [hnil, hcnil]
      · intro i hi
        rw [hnil] at hi
        simp only [List.nil_append, List.length_cons, List.length_nil] at hi
        have hi0 : i = 0 := by omega
        subst hi0
        rw [if_pos rfl, hnil, hcnil]
        rfl
    | some parent_digest =>
      have hnenil : ch.path_digest ≠ [] := by
        intro hc
        rw [hc] at hlast
        simp at hlast
      have hparent : parent_digest =
          ch.path_digest.getD (ch.path_digest.length - 1) [] := by
        have := getLast?_eq_getD ch.path_digest [] hnenil
        rw [hlast] at this
        injection this
      rw [hlast] at hadd
      injection hadd with hadd
      subst hadd
      have hpos : 0 < ch.path_digest.length := List.length_pos.mpr hnenil
      constructor
      · simp [hlen]
      · intro i hi
        simp only [List.length_append, List.length_cons, List.length_nil] at hi
        rcases Nat.lt_or_ge i ch.path_digest.length with hlt | hge
        · have hic : i < ch.certs.length := by omega
          have e1 : (ch.path_digest ++ [o.sha256 (parent_digest ++ cert.digest o)]).getD i []
              = ch.path_digest.getD i [] := List.getD_append _ _ _ _ hlt
          have e2 : (ch.certs ++ [cert]).getD i defaultCert
              = ch.certs.getD i defaultCert := List.getD_append _ _ _ _ hic
          by_cases h0 : i = 0
          · subst h0
            have e3 : (ch.certs ++ [cert]).getD 0 defaultCert
                = ch.certs.getD 0 defaultCert := List.getD_append _ _ _ _ (by omega)
            rw [if_pos rfl, e1, e3]
            have h00 := hdig 0 hlt
            rw [if_pos rfl] at h00
            exact h00
          · have e4 : (ch.path_digest ++ [o.sha256 (parent_digest ++ cert.digest o)]).getD (i - 1) []
                = ch.path_digest.getD (i - 1) [] := List.getD_append _ _ _ _ (by omega)
            rw [if_neg h0, e1, e4, e2]
            have hdi := hdig i hlt
            rw [if_neg h0] at hdi
            exact hdi
        · have hieq : i = ch.path_digest.length := by omega
          have e5 : (ch.path_digest ++ [o.sha256 (parent_digest ++ cert.digest o)]).getD i []
              = o.sha256 (parent_digest ++ cert.digest o) := by
            rw [hieq, List.getD_append_right _ _ _ _ le_rfl, Nat.sub_self]
            rfl
          have e6 : (ch.certs ++ [cert]).getD i defaultCert = cert := by
            rw [hieq, ← hlen, List.getD_append_right _ _ _ _ le_rfl, Nat.sub_self]
            rfl
          have e7 : (ch.path_digest ++ [o.sha256 (parent_digest ++ cert.digest o)]).getD (i - 1) []
              = ch.path_digest.getD (i - 1) [] := List.getD_append _ _ _ _ (by omega)
          rw [if_neg (by omega), e5, e6, e7, hieq, ← hparent]
          rfl

theorem addAll_pathInv (o : Crypto) :
    ∀ ders ch ch', pathDigestInv o ch → ch.addAll o ders = .ok ch' →
      pathDigestInv o ch' := by
  intro ders
  induction ders with
  | nil =>
    intro ch ch' hinv h
    unfold CertChain.addAll at h
    injection h with h
    rw [← h]
    exact hinv
  | cons b bs ih =>
    intro ch ch' hinv h
    unfold CertChain.addAll at h
    cases hadd : ch.add_cert_by_der o b with
    | error e =>
      rw [hadd] at h
      simp only [exbind_error] at h
      exact Except.noConfusion h
    | ok chm =>
      rw [hadd] at h
      simp only [exbind_ok] at h
      exact ih chm ch' (add_cert_pathInv o ch b chm hinv hadd) h

/-- C2: the empty chain satisfies the path-digest invariant, every
successful `add_cert_by_der` preserves it, and hence every chain built by
adding a sequence of DER certificates (root-to-leaf) satisfies it:
`certs.len() == path_digest.len()`, `path_digest[0] = SHA-256(cert[0].der)`
and `path_digest[i] = SHA-256(path_digest[i-1] || SHA-256(cert[i].der))`
for `i ≥ 1` after every operation. -/
theorem path_digest_rule (o : Crypto) :
    pathDigestInv o CertChain.new ∧
    (∀ ch buf ch', pathDigestInv o ch → ch.add_cert_by_der o buf = .ok ch' →
      pathDigestInv o ch') ∧
    (∀ ders ch', CertChain.parse o ders = .ok ch' → pathDigestInv o ch') := by
  have hnew : pathDigestInv o CertChain.new := by
    constructor
    · rfl
    · intro i hi
      simp [CertChain.new] at hi
  refine ⟨hnew, ?_, ?_⟩
  · exact fun ch buf ch' => add_cert_pathInv o ch buf ch'
  · exact fun ders ch' => addAll_pathInv o ders CertChain.new ch' hnew

/-- Witness for C2: the chain built from the DER byte strings `[0]` and
`[7]` under `cryptoW` is `chainW` and satisfies the invariant. -/
theorem path_digest_rule_witness : pathDigestInv cryptoW chainW :=
  (path_digest_rule cryptoW).2.2 [[0], [7]] chainW rfl

/-! ## Claim C7 -/

/-- C7 counterexample: the batched cert-cache query accepts a digest list
whose single inner list has first entry `[2]`, different from the
contract's stored root certificate `[1]`, and returns the contract's answer
instead of rejecting locally with an error — the claimed local
pre-validation of `list[0] == rootCert` does not happen. -/
theorem batch_query_no_root_check_counterexample :
    Contract.root_cert contractW = .ok [1] ∧
    Contract.batch_query_cert_cache contractW [[[2]]] = .ok [0] ∧
    ([2] : Bytes) ≠ [1] :=
  ⟨rfl, rfl, by decide⟩

/-- C7 amended: before calling the contract the client validates locally
only that each inner list is non-empty and has length at most 8, rejecting
violations with an error; when every inner list satisfies those bounds the
result is exactly the contract call's response — no comparison of the first
entry against the contract's `rootCert` is performed locally (the contract
itself answers prefix 0 on a root mismatch).  An empty outer list
short-circuits to an empty answer. -/
theorem batch_query_cert_cache_validation (c : ContractOracle)
    (certs_digests : List (List Bytes)) :
    (certs_digests = [] → Contract.batch_query_cert_cache c certs_digests = .ok []) ∧
    (certs_digests ≠ [] →
      (∃ rc ∈ certs_digests, rc.length = 0 ∨ rc.length > 8) →
      ∃ e, Contract.batch_query_cert_cache c certs_digests = .error e) ∧
    (certs_digests ≠ [] →
      (∀ rc ∈ certs_digests, rc.length ≠ 0 ∧ rc.length ≤ 8) →
      Contract.batch_query_cert_cache c certs_digests =
        c.checkTrustedRes certs_digests) := by
  refine ⟨?_, ?_, ?_⟩
  · intro h
    subst h
    rfl
  · intro hne hex
    refine ⟨"Too many certificate chains provided, maximum is 8", ?_⟩
    unfold Contract.batch_query_cert_cache
    rw [if_neg (by simpa using hne)]
    rw [if_pos ?_]
    simp only [List.any_eq_true, decide_eq_true_eq]
    exact hex
  · intro hne hall
    unfold Contract.batch_query_cert_cache
    rw [if_neg (by simpa using hne)]
    rw [if_neg ?_]
    simp only [List.any_eq_true, decide_eq_true_eq, not_exists]
    push_neg
    intro rc hrc
    have := hall rc hrc
    omega

/-- Witness for C7 (amended): a digest list of one inner list of length 1
is passed through to the contract, a digest list with an inner list of
length 9 is rejected locally, and the empty list yields the empty
answer. -/
theorem batch_query_cert_cache_validation_witness :
    Contract.batch_query_cert_cache contractW [[[2]]] =
      contractW.checkTrustedRes [[[2]]] ∧
    (∃ e, Contract.batch_query_cert_cache contractW
      [[[2], [2], [2], [2], [2], [2], [2], [2], [2]]] = .error e) ∧
    Contract.batch_query_cert_cache contractW [] = .ok [] :=
  ⟨(batch_query_cert_cache_validation contractW [[[2]]]).2.2 (by decide)
      (by intro rc hrc; simp at hrc; subst hrc; constructor <;> decide),
   (batch_query_cert_cache_validation contractW
      [[[2], [2], [2], [2], [2], [2], [2], [2], [2]]]).2.1 (by decide)
      ⟨[[2], [2], [2], [2], [2], [2], [2], [2], [2]], by decide⟩,
   (batch_query_cert_cache_validation contractW []).1 rfl⟩

/-! ## Claim C4 -/

/-- C4: for a parsed COSE_Sign1 envelope whose protected-header bytes
decode to the map `m` and any caller-supplied signature algorithm: if `m`
has an integer algorithm entry at integer key 1 that disagrees with the
COSE id of the caller-supplied algorithm, `verify_signature` returns
`Ok(false)`; if `m` lacks the algorithm entry, `verify_signature` returns
an error. -/
theorem cose_protected_alg_check (o : Crypto) (c : CoseSign1) (sig_algo : SigAlgo)
    (issuer_key : PubKey) (m : HeaderMap)
    (hdec : o.cborDecodeHeaderMap c.protectedHeader = .ok m) :
    (∀ a v, headerLookup m (.cint 1) = some (.cint a) →
      sig_algo_val sig_algo = .ok v → a ≠ v →
      c.verify_signature o sig_algo issuer_key = .ok false) ∧
    (headerLookup m (.cint 1) = none →
      ∃ e, c.verify_signature o sig_algo issuer_key = .error e) := by
  constructor
  · intro a v hlk hval hne
    unfold CoseSign1.verify_signature
    rw [hdec]
    simp only [exbind_ok]
    rw [hlk]
    simp only []
    rw [hval]
    simp only [exbind_ok]
    rw [if_pos hne]
  · intro hlk
    unfold CoseSign1.verify_signature
    rw [hdec]
    simp only [exbind_ok]
    rw [hlk]
    exact ⟨_, rfl⟩

/-- Witness for C4: under `cryptoW` the protected header decodes to the
ES384 entry `(1 ↦ -35)`, so verification with caller algorithm ES256
(id `-7`) returns `Ok(false)`; under `cryptoNoAlg` the header map is empty,
so verification errors. -/
theorem cose_protected_alg_check_witness :
    coseW.verify_signature cryptoW .EcdsaSHA256
      { algo := .ECDSA .P384, val := [4] } = .ok false ∧
    (∃ e, coseW.verify_signature cryptoNoAlg .EcdsaSHA384
      { algo := .ECDSA .P384, val := [4] } = .error e) :=
  ⟨(cose_protected_alg_check cryptoW coseW .EcdsaSHA256
      { algo := .ECDSA .P384, val := [4] } [(.cint 1, .cint (-35))] rfl).1
      (-35) (-7) rfl rfl (by decide),
   (cose_protected_alg_check cryptoNoAlg coseW .EcdsaSHA384
      { algo := .ECDSA .P384, val := [4] } [] rfl).2 rfl⟩

/-! ## Inversion lemmas for the authentication pipeline -/

theorem checkAllValid_ok (t : Int) (certs : List Cert)
    (h : checkAllValid t certs = .ok ()) :
    ∀ c ∈ certs, c.data.notBefore ≤ t ∧ t ≤ c.data.notAfter := by
  induction certs with
  | nil =>
    intro c hc
    simp at hc
  | cons c0 cs ih =>
    intro c hc
    unfold checkAllValid at h
    cases hcv : c0.check_valid t with
    | error e =>
      rw [hcv] at h
      simp only [exbind_error] at h
      exact Except.noConfusion h
    | ok u =>
      rw [hcv] at h
      simp only [exbind_ok] at h
      have hc0 : c0.data.notBefore ≤ t ∧ t ≤ c0.data.notAfter := by
        by_cases hcond : c0.data.notBefore ≤ t ∧ t ≤ c0.data.notAfter
        · exact hcond
        · unfold Cert.check_valid at hcv
          rw [if_neg hcond] at hcv
          exact Except.noConfusion hcv
      rcases List.mem_cons.mp hc with rfl | hmem
      · exact hc0
      · exact ih h c hmem

theorem chain_check_valid_ok (o : Crypto) (ch : CertChain) (ts : Nat)
    (h : ch.check_valid o ts = .ok ()) :
    ch.certs ≠ [] ∧
    ∀ t, o.asn1FromTimestamp ts = .ok t →
      ∀ c ∈ ch.certs, c.data.notBefore ≤ t ∧ t ≤ c.data.notAfter := by
  unfold CertChain.check_valid at h
  cases hts : o.asn1FromTimestamp ts with
  | error e =>
    rw [hts] at h
    simp only [exbind_error] at h
    exact Except.noConfusion h
  | ok t0 =>
    rw [hts] at h
    simp only [exbind_ok] at h
    by_cases he : ch.certs.isEmpty
    · rw [if_pos he] at h
      exact Except.noConfusion h
    · rw [if_neg he] at h
      refine ⟨by simpa using he, ?_⟩
      intro t ht
      have heq : t0 = t := Except.ok.inj ht
      subst heq
      exact checkAllValid_ok t0 ch.certs h

theorem authenticate_inv (o : Crypto) (r : AttestationReport)
    (trusted_certs_len : Nat) (timestamp : Nat) (chain : CertChain)
    (h : r.authenticate o trusted_certs_len timestamp = .ok chain) :
    r.cert_chain o = .ok chain ∧
    chain.verify_chain o trusted_certs_len = .ok true ∧
    chain.check_valid o timestamp = .ok () := by
  unfold AttestationReport.authenticate at h
  cases hcc : r.cert_chain o with
  | error e =>
    rw [hcc] at h
    simp only [exbind_error] at h
    exact Except.noConfusion h
  | ok cc =>
    rw [hcc] at h
    simp only [exbind_ok] at h
    cases hvc : cc.verify_chain o trusted_certs_len with
    | error e =>
      rw [hvc] at h
      simp only [] at h
      exact Except.noConfusion h
    | ok b =>
      rw [hvc] at h
      cases b with
      | false =>
        simp only [] at h
        exact Except.noConfusion h
      | true =>
        simp only [] at h
        cases hcv : cc.check_valid o timestamp with
        | error e =>
          rw [hcv] at h
          simp only [exbind_error] at h
          exact Except.noConfusion h
        | ok u =>
          rw [hcv] at h
          simp only [exbind_ok] at h
          cases hleaf : cc.certs.getLast? with
          | none =>
            rw [hleaf] at h
            simp only [] at h
            exact Except.noConfusion h
          | some leaf =>
            rw [hleaf] at h
            simp only [] at h
            cases hvs : r.cose_sign.verify_signature o .EcdsaSHA384 leaf.pubkey with
            | error e =>
              rw [hvs] at h
              simp only [exbind_error] at h
              exact Except.noConfusion h
            | ok res =>
              rw [hvs] at h
              simp only [exbind_ok] at h
              cases res with
              | false =>
                simp only [Bool.false_eq_true, if_neg] at h
                exact Except.noConfusion h
              | true =>
                rw [if_pos rfl] at h
                injection h with h
                subst h
                exact ⟨rfl, hvc, by cases u; exact hcv⟩

theorem verify_attestation_report_inv (o : Crypto) (input : VerifierInput)
    (j : VerifierJournalData)
    (hv : verify_attestation_report o input = .ok j) :
    ∃ report chain,
      AttestationReport.parse o input.attestation_report = .ok report ∧
      report.authenticate o input.trusted_certs_len input.timestamp = .ok chain ∧
      j = { verify_timestamp := input.timestamp
            certs := chain.path_digest
            trusted_certs_len := input.trusted_certs_len
            user_data := get_option_bytes report.doc.user_data
            nonce := get_option_bytes report.doc.nonce
            public_key := get_option_bytes report.doc.public_key
            pcrs := (report.doc.pcrs.filter (fun p => p.2 ≠ zero48)).map
              (fun p => { index := p.1, value := toBytes48 p.2 })
            module_id := report.doc.module_id
            doc_timestamp := report.doc.timestamp } := by
  unfold verify_attestation_report at hv
  cases hp : AttestationReport.parse o input.attestation_report with
  | error e =>
    rw [hp] at hv
    simp only [exbind_error] at hv
    exact Except.noConfusion hv
  | ok report =>
    rw [hp] at hv
    simp only [exbind_ok] at hv
    cases hauth : report.authenticate o input.trusted_certs_len input.timestamp with
    | error e =>
      rw [hauth] at hv
      simp only [exbind_error] at hv
      exact Except.noConfusion hv
    | ok chain =>
      rw [hauth] at hv
      simp only [exbind_ok] at hv
      injection hv with hv
      exact ⟨report, chain, rfl, hauth, hv.symm⟩

/-! ## Claim C1 -/

/-- C1 counterexample: at the concrete input `inputW`, whose `timestamp`
field is 50 while the parsed document's `timestamp/1000` is 5000, the
verifier accepts (the certificates are valid at 50 and invalid at 5000),
whereas the spec-modelled variant that runs the pipeline at
`doc.timestamp/1000` rejects: the verifier guest does not use
`doc.timestamp/1000` as the verification time but the caller-supplied
input field. -/
theorem verify_time_spec_counterexample :
    docW.timestamp / 1000 = 5000 ∧
    inputW.timestamp = 50 ∧
    AttestationReport.parse cryptoW inputW.attestation_report = .ok reportW ∧
    (verify_attestation_report cryptoW inputW).isOk = true ∧
    (verify_attestation_report_specTime cryptoW inputW).isOk = false :=
  ⟨rfl, rfl, rfl, rfl, rfl⟩

/-- C1 amended: for every `VerifierInput`, the verifier guest runs the
authentication pipeline (chain verification, time-validity check, COSE
signature check) using `input.timestamp` — the caller-supplied timestamp
field of `VerifierInput` — as the verification time; `doc.timestamp` is
only copied into the journal's `doc_timestamp` field, and the journal's
`verify_timestamp` echoes `input.timestamp`.  On success, every
certificate of the chain is valid at (the time conversion of)
`input.timestamp`. -/
theorem verify_time_is_input_timestamp (o : Crypto) (input : VerifierInput)
    (j : VerifierJournalData)
    (hv : verify_attestation_report o input = .ok j) :
    ∃ report chain,
      AttestationReport.parse o input.attestation_report = .ok report ∧
      report.authenticate o input.trusted_certs_len input.timestamp = .ok chain ∧
      j.verify_timestamp = input.timestamp ∧
      j.doc_timestamp = report.doc.timestamp ∧
      j.certs = chain.path_digest ∧
      (∀ t, o.asn1FromTimestamp input.timestamp = .ok t →
        ∀ c ∈ chain.certs, c.data.notBefore ≤ t ∧ t ≤ c.data.notAfter) := by
  obtain ⟨report, chain, hp, hauth, hj⟩ := verify_attestation_report_inv o input j hv
  have hcv := (authenticate_inv o report input.trusted_certs_len input.timestamp
    chain hauth).2.2
  have hvalid := (chain_check_valid_ok o chain input.timestamp hcv).2
  subst hj
  exact ⟨report, chain, hp, hauth, rfl, rfl, rfl, hvalid⟩

/-- Witness for C1 (amended): the concrete run at `cryptoW` / `inputW`
produces the journal `jW` and the amended properties hold there. -/
theorem verify_time_is_input_timestamp_witness :
    verify_attestation_report cryptoW inputW = .ok jW ∧
    ∃ report chain,
      AttestationReport.parse cryptoW inputW.attestation_report = .ok report ∧
      report.authenticate cryptoW inputW.trusted_certs_len inputW.timestamp = .ok chain ∧
      jW.verify_timestamp = inputW.timestamp ∧
      jW.doc_timestamp = report.doc.timestamp ∧
      jW.certs = chain.path_digest ∧
      (∀ t, cryptoW.asn1FromTimestamp inputW.timestamp = .ok t →
        ∀ c ∈ chain.certs, c.data.notBefore ≤ t ∧ t ≤ c.data.notAfter) :=
  ⟨rfl, verify_time_is_input_timestamp cryptoW inputW jW rfl⟩

/-! ## Claim C9 -/

/-- C9: when the optional `publicKey`, `userData` or `nonce` field of the
parsed attestation document is absent, the corresponding journal field
produced by `verify_attestation_report` is the empty byte string (the
journal field is a total byte-string field, never absent); when the
optional field is present its bytes are copied verbatim. -/
theorem optional_fields_empty (o : Crypto) (input : VerifierInput)
    (report : AttestationReport) (j : VerifierJournalData)
    (hp : AttestationReport.parse o input.attestation_report = .ok report)
    (hv : verify_attestation_report o input = .ok j) :
    j.user_data = get_option_bytes report.doc.user_data ∧
    j.nonce = get_option_bytes report.doc.nonce ∧
    j.public_key = get_option_bytes report.doc.public_key ∧
    (report.doc.user_data = none → j.user_data = []) ∧
    (report.doc.nonce = none → j.nonce = []) ∧
    (report.doc.public_key = none → j.public_key = []) ∧
    (∀ b, report.doc.user_data = some b → j.user_data = b) ∧
    (∀ b, report.doc.nonce = some b → j.nonce = b) ∧
    (∀ b, report.doc.public_key = some b → j.public_key = b) := by
  obtain ⟨report', chain, hp', hauth, hj⟩ := verify_attestation_report_inv o input j hv
  have hrep : report' = report := Except.ok.inj (hp'.symm.trans hp)
  subst hrep
  subst hj
  refine ⟨rfl, rfl, rfl, ?_, ?_, ?_, ?_, ?_, ?_⟩ <;>
    first
    | (intro h; rw [h]; rfl)
    | (intro b h; rw [h]; rfl)

/-- Witness for C9: in the concrete run at `cryptoW` / `inputW` the
document's `nonce` and `public_key` are absent and the journal carries
empty byte strings for them, while the present `user_data` is copied
verbatim. -/
theorem optional_fields_empty_witness :
    docW.nonce = none ∧ docW.public_key = none ∧ docW.user_data = some [7, 7] ∧
    jW.nonce = [] ∧ jW.public_key = [] ∧ jW.user_data = [7, 7] :=
  ⟨rfl, rfl, rfl,
   (optional_fields_empty cryptoW inputW reportW jW rfl rfl).2.2.2.2.1 rfl,
   (optional_fields_empty cryptoW inputW reportW jW rfl rfl).2.2.2.2.2.1 rfl,
   (optional_fields_empty cryptoW inputW reportW jW rfl rfl).2.2.2.2.2.2.1 [7, 7] rfl⟩

/-! ## Claim C5 -/

theorem pairwise_key_unique {l : List (Nat × Bytes)}
    (h : List.Pairwise (fun a b => a.1 < b.1) l) :
    ∀ idx v w, (idx, v) ∈ l → (idx, w) ∈ l → v = w := by
  induction l with
  | nil =>
    intro idx v w hv
    simp at hv
  | cons p ps ih =>
    intro idx v w hv hw
    obtain ⟨hhead, htail⟩ := List.pairwise_cons.mp h
    rcases List.mem_cons.mp hv with h1 | h1 <;> rcases List.mem_cons.mp hw with h2 | h2
    · have := h1.trans h2.symm
      exact congrArg Prod.snd this
    · exfalso
      have := hhead (idx, w) h2
      rw [← h1] at this
      exact lt_irrefl idx this
    · exfalso
      have := hhead (idx, v) h1
      rw [← h2] at this
      exact lt_irrefl idx this
    · exact ih htail idx v w h1 h2

/-- C5: when `verify_attestation_report` succeeds on a report whose parsed
document has its PCR map in strictly ascending index order (the `BTreeMap`
invariant), the journal's `pcrs` list is exactly the map of the non-zero
entries of the document's PCR map (each 48-byte value split into its
`Bytes48` halves), its indices are strictly ascending, every non-zero PCR
of the document appears, and every zero-valued PCR is omitted. -/
theorem pcr_filter (o : Crypto) (input : VerifierInput)
    (report : AttestationReport) (j : VerifierJournalData)
    (hp : AttestationReport.parse o input.attestation_report = .ok report)
    (hsorted : List.Pairwise (fun a b => a.1 < b.1) report.doc.pcrs)
    (hv : verify_attestation_report o input = .ok j) :
    j.pcrs = (report.doc.pcrs.filter (fun p => p.2 ≠ zero48)).map
      (fun p => { index := p.1, value := toBytes48 p.2 }) ∧
    List.Pairwise (fun a b => a.index < b.index) j.pcrs ∧
    (∀ idx v, (idx, v) ∈ report.doc.pcrs → v ≠ zero48 →
      ({ index := idx, value := toBytes48 v } : PcrEntry) ∈ j.pcrs) ∧
    (∀ idx v, (idx, v) ∈ report.doc.pcrs → v = zero48 →
      ∀ b, ({ index := idx, value := b } : PcrEntry) ∉ j.pcrs) := by
  obtain ⟨report', chain, hp', hauth, hj⟩ := verify_attestation_report_inv o input j hv
  have hrep : report' = report := Except.ok.inj (hp'.symm.trans hp)
  subst hrep
  subst hj
  have hfil : List.Pairwise (fun a b => a.1 < b.1)
      (report'.doc.pcrs.filter (fun p => decide (p.2 ≠ zero48))) :=
    List.Pairwise.filter _ hsorted
  refine ⟨rfl, ?_, ?_, ?_⟩
  · simp only []
    rw [List.pairwise_map]
    exact hfil
  · intro idx v hmem hnz
    simp only []
    exact List.mem_map.mpr ⟨(idx, v),
      List.mem_filter.mpr ⟨hmem, by simpa using hnz⟩, rfl⟩
  · intro idx v hmem hz b hbad
    simp only [] at hbad
    obtain ⟨q, hqf, hqe⟩ := List.mem_map.mp hbad
    obtain ⟨hql, hqnz⟩ := List.mem_filter.mp hqf
    have hqidx : q.1 = idx := congrArg PcrEntry.index hqe
    have hq2 : (idx, q.2) ∈ report'.doc.pcrs := by
      rw [← hqidx]
      exact hql
    have : q.2 = v := pairwise_key_unique hsorted idx q.2 v hq2 hmem
    rw [this, hz] at hqnz
    simp at hqnz

/-- Witness for C5: in the concrete run at `cryptoW` / `inputW`, PCR 0 of
the document is zero-valued and absent from the journal, while PCRs 1 and 2
appear in ascending order. -/
theorem pcr_filter_witness :
    jW.pcrs = (docW.pcrs.filter (fun p => p.2 ≠ zero48)).map
      (fun p => { index := p.1, value := toBytes48 p.2 }) ∧
    List.Pairwise (fun a b => a.index < b.index) jW.pcrs ∧
    (0, zero48) ∈ docW.pcrs ∧
    (∀ b, ({ index := 0, value := b } : PcrEntry) ∉ jW.pcrs) := by
  have h := pcr_filter cryptoW inputW reportW jW rfl
    (by constructor
        · intro p hp
          simp [reportW, docW] at hp
          rcases hp with ⟨h1, _⟩ | ⟨h1, _⟩ <;> omega
        · constructor
          · intro p hp
            simp [reportW, docW] at hp
            rcases hp with ⟨h1, _⟩
            omega
          · simp)
    rfl
  exact ⟨h.1, h.2.1, by simp [docW],
    fun b => h.2.2.2 0 zero48 (by simp [reportW, docW]) rfl b⟩

/-! ## Claim C6 -/

theorem parseReports_length (o : Crypto) :
    ∀ raws reports digests,
      parseReportsAndDigests o raws = .ok (reports, digests) →
      reports.length = raws.length ∧ digests.length = raws.length := by
  intro raws
  induction raws with
  | nil =>
    intro reports digests h
    unfold parseReportsAndDigests at h
    injection h with h
    cases h
    exact ⟨rfl, rfl⟩
  | cons raw rest ih =>
    intro reports digests h
    unfold parseReportsAndDigests at h
    cases hp : AttestationReport.parse o raw with
    | error e =>
      rw [hp] at h
      simp only [exbind_error] at h
      exact Except.noConfusion h
    | ok report =>
      rw [hp] at h
      simp only [exbind_ok] at h
      cases hcc : report.cert_chain o with
      | error e =>
        rw [hcc] at h
        simp only [exbind_error] at h
        exact Except.noConfusion h
      | ok chain =>
        rw [hcc] at h
        simp only [exbind_ok] at h
        cases hrest : parseReportsAndDigests o rest with
        | error e =>
          rw [hrest] at h
          simp only [exbind_error] at h
          exact Except.noConfusion h
        | ok pr =>
          rw [hrest] at h
          simp only [exbind_ok] at h
          obtain ⟨reports', digests'⟩ := pr
          simp only [] at h
          injection h with h
          obtain ⟨hl, hr⟩ := ih reports' digests' hrest
          cases h
          constructor <;> simp [hl, hr]

theorem validateTimes_ok (skip : Bool) (current_time max_time_diff : Nat) :
    ∀ reports,
      (skip = true ∨
        ∀ r ∈ reports, ¬(r.doc.timestamp / 1000 + max_time_diff < current_time)) →
      validateTimes skip current_time max_time_diff reports = .ok () := by
  intro reports
  induction reports with
  | nil =>
    intro _
    rfl
  | cons r rest ih =>
    intro hcond
    unfold validateTimes
    rw [if_neg ?_]
    · apply ih
      rcases hcond with hs | hall
      · exact Or.inl hs
      · exact Or.inr (fun r' hr' => hall r' (List.mem_cons_of_mem r hr'))
    · rcases hcond with hs | hall
      · intro hc
        rw [hs] at hc
        simp at hc
      · intro hc
        exact hall r (List.mem_cons_self r rest) hc.1

theorem validateTimes_error (current_time max_time_diff : Nat) :
    ∀ reports,
      (∃ r ∈ reports, r.doc.timestamp / 1000 + max_time_diff < current_time) →
      ∃ e, validateTimes false current_time max_time_diff reports = .error e := by
  intro reports
  induction reports with
  | nil =>
    intro hex
    obtain ⟨r, hr, _⟩ := hex
    simp at hr
  | cons r rest ih =>
    intro hex
    unfold validateTimes
    by_cases hr : r.doc.timestamp / 1000 + max_time_diff < current_time
    · refine ⟨"Report signed too long ago, may indicate verification failure", ?_⟩
      rw [if_pos ⟨hr, by simp⟩]
    · obtain ⟨r', hr', hv'⟩ := hex
      rcases List.mem_cons.mp hr' with heq | hmem
      · rw [heq] at hv'
        exact absurd hv' hr
      · obtain ⟨e, he⟩ := ih ⟨r', hmem, hv'⟩
        refine ⟨e, ?_⟩
        rw [if_neg (fun hc => hr hc.1)]
        exact he

theorem zipWith_replicate_right {α β γ : Type} (f : α → β → γ) (d : β) :
    ∀ l : List α, List.zipWith f l (List.replicate l.length d) = l.map (fun a => f a d) := by
  intro l
  induction l with
  | nil => rfl
  | cons a as ih =>
    simp only [List.length_cons, List.replicate_succ, List.zipWith_cons_cons, List.map_cons]
    rw [ih]

/-- C6: with no contract configured, `prepare_verifier_inputs` uses
`maxTimeDiff = 3*3600` seconds and sets every report's trusted-certs prefix
length to the configured default; a report whose `doc.timestamp/1000 +
maxTimeDiff` is below the current unix time makes the operation fail with
an error unless `skipTimeValidityCheck` is set, in which case it only warns
and proceeds to produce the inputs. -/
theorem prepare_no_contract_policy (o : Crypto) (cfg : ProverConfig)
    (program_id : ProgramId) (current_time : Nat) (raw_reports : List Bytes)
    (parsed : List AttestationReport) (digests : List (List Bytes))
    (hp : parseReportsAndDigests o raw_reports = .ok (parsed, digests)) :
    ((cfg.skip_time_validity_check = false ∧
      ∃ r ∈ parsed, r.doc.timestamp / 1000 + 3 * 3600 < current_time) →
      ∃ e, prepare_verifier_inputs o cfg program_id none current_time raw_reports
        = .error e) ∧
    ((cfg.skip_time_validity_check = true ∨
      ∀ r ∈ parsed, ¬(r.doc.timestamp / 1000 + 3 * 3600 < current_time)) →
      prepare_verifier_inputs o cfg program_id none current_time raw_reports =
        .ok (raw_reports.map (fun rb =>
          { trustedCertsPrefixLen := cfg.default_trusted_certs_prefix_length,
            attestationReport := rb }))) := by
  have hlen := (parseReports_length o raw_reports parsed digests hp).1
  constructor
  · intro ⟨hskip, hex⟩
    obtain ⟨e, hval⟩ := validateTimes_error current_time (3600 * 3) parsed
      (by simpa using hex)
    refine ⟨e, ?_⟩
    unfold prepare_verifier_inputs
    rw [hp]
    simp only [exbind_ok, expure_bind]
    rw [← hskip] at hval
    rw [hval]
    rfl
  · intro hcond
    have hval := validateTimes_ok cfg.skip_time_validity_check current_time
      (3600 * 3) parsed (by simpa using hcond)
    unfold prepare_verifier_inputs
    rw [hp]
    simp only [exbind_ok, expure_bind]
    rw [hval]
    simp only [exbind_ok]
    rw [if_neg ?_]
    · rw [hlen, zipWith_replicate_right]
    · simp [hlen]

/-- Witness for C6: with the single raw report `[9]` (document timestamp
5000000 ms) and current time 100000, the default configuration fails with
an error, while the skip-flag configuration proceeds and assigns the
default prefix length 1. -/
theorem prepare_no_contract_policy_witness :
    (∃ e, prepare_verifier_inputs cryptoW cfgW programIdW none 100000 [[9]]
      = .error e) ∧
    prepare_verifier_inputs cryptoW cfgSkipW programIdW none 100000 [[9]] =
      .ok [{ trustedCertsPrefixLen := 1, attestationReport := [9] }] :=
  ⟨(prepare_no_contract_policy cryptoW cfgW programIdW 100000 [[9]]
      [reportW] [[[0]]] rfl).1
      ⟨rfl, reportW, by simp, by decide⟩,
   (prepare_no_contract_policy cryptoW cfgSkipW programIdW 100000 [[9]]
      [reportW] [[[0]]] rfl).2 (Or.inl rfl)⟩

/-! ## Claim C8 -/

/-- C8: for every `BatchVerifierInput { verifierVk, outputs }`, each
aggregator guest (SP1 and RISC Zero) performs, for the `i`-th element of
`outputs`, a proof-composition assertion binding `verifierVk` to the
SHA-256 digest of the ABI encoding of that output, and its final action
commits the encoding of a `BatchVerifierJournal` whose `verifierVk` and
`outputs` fields equal the input's fields verbatim; the number of
assertions equals the number of outputs, in order. -/
theorem aggregator_binds_and_echoes (o : Crypto) (input : BatchVerifierInputData) :
    ((sp1AggregatorMain o input).length = input.outputs.length + 1 ∧
     (∀ i, i < input.outputs.length →
       (sp1AggregatorMain o input).getD i (.commit []) =
         .assertProof input.verifierVk
           (o.sha256 (o.abiEncodeJournal (input.outputs.getD i defaultJournal)))) ∧
     (sp1AggregatorMain o input).getLast? =
       some (.commit (o.abiEncodeBatchJournal
         { verifierVk := input.verifierVk, outputs := input.outputs }))) ∧
    ((risc0AggregatorMain o input).length = input.outputs.length + 1 ∧
     (∀ i, i < input.outputs.length →
       (risc0AggregatorMain o input).getD i (.commit []) =
         .assertProof input.verifierVk
           (o.sha256 (o.abiEncodeJournal (input.outputs.getD i defaultJournal)))) ∧
     (risc0AggregatorMain o input).getLast? =
       some (.commit (o.abiEncodeBatchJournal
         { verifierVk := input.verifierVk, outputs := input.outputs }))) := by
  have hmap : ∀ f : VerifierJournalData → GuestEvent, ∀ i, i < input.outputs.length →
      ((input.outputs.map f) ++ [GuestEvent.commit (o.abiEncodeBatchJournal
        { verifierVk := input.verifierVk, outputs := input.outputs })]).getD i (.commit [])
      = f (input.outputs.getD i defaultJournal) := by
    intro f i hi
    have hm : i < (input.outputs.map f).length := by simpa using hi
    rw [List.getD_append _ _ _ _ hm, List.getD_eq_getElem _ _ hm,
      List.getElem_map, List.getD_eq_getElem input.outputs defaultJournal hi]
  refine ⟨⟨?_, ?_, ?_⟩, ⟨?_, ?_, ?_⟩⟩
  · simp [sp1AggregatorMain]
  · intro i hi
    exact hmap (fun output => .assertProof input.verifierVk (journalDigest o output)) i hi
  · simp [sp1AggregatorMain]
  · simp [risc0AggregatorMain]
  · intro i hi
    exact hmap (fun output =>
      .assertProof input.verifierVk (o.sha256 (o.abiEncodeJournal output))) i hi
  · simp [risc0AggregatorMain]

/-- Witness for C8: at the concrete batch input `batchInputW` the first SP1
assertion binds the vk `[3, 3]` to the digest of the first output's
encoding, and the RISC Zero guest's last event commits the batch journal
echoing the input's fields. -/
theorem aggregator_binds_and_echoes_witness :
    (sp1AggregatorMain cryptoW batchInputW).getD 0 (.commit []) =
      .assertProof batchInputW.verifierVk
        (cryptoW.sha256 (cryptoW.abiEncodeJournal
          (batchInputW.outputs.getD 0 defaultJournal))) ∧
    (risc0AggregatorMain cryptoW batchInputW).getLast? =
      some (.commit (cryptoW.abiEncodeBatchJournal
        { verifierVk := batchInputW.verifierVk, outputs := batchInputW.outputs })) :=
  ⟨(aggregator_binds_and_echoes cryptoW batchInputW).1.2.1 0 (by decide),
   (aggregator_binds_and_echoes cryptoW batchInputW).2.2.2⟩

end NitroAttest
